import Mathlib

/-!
Verification development for the ozzo-dbx query-building library.

The definitions below are shallow embeddings, translated from the Go
sources: `db.go` (SQL preprocessing and identifier quoting), `query.go`
(named-parameter resolution), the expression algebra (`HashExp`, `InExp`,
`AndOrExp`, `NotExp`, `Exp` and their `Build` methods), the base builder
(`Insert`, `Upsert`, quoting), the base and MSSQL query builders
(`BuildOrderBy`, `BuildLimit`, `BuildOrderByAndLimit`), the SQLite builder
(unsupported DDL operations) and the struct mapper (`structInfo.build`).

Go machine strings are modelled as Lean `String` (lists of characters);
Go `int64` values as `Int`; Go maps (`Params`, `HashExp`) as association
lists with replace-or-append insertion, so that `len` corresponds to list
length under the unique-key invariant that Go maps enforce.
-/

namespace OzzoDbx

/-- A SQL dialect: the pieces of `Builder` that `DB` delegates to, namely
anonymous-placeholder generation and simple identifier quoting. -/
structure Dialect where
  generatePlaceholder : Nat → String
  quoteSimpleTableName : String → String
  quoteSimpleColumnName : String → String

mutual

/-- The expression algebra (`Expression` implementations in `expression.go`):
raw fragment with bindings (`Exp`), field-equality map (`HashExp`), negation
(`NotExp`), AND/OR lists (`AndOrExp`, with `Option` for possibly-nil entries),
and set membership (`InExp`). -/
inductive Expr where
  | exp (e : String) (ps : List (String × Val)) : Expr
  | hash (entries : List (String × Val)) : Expr
  | notE (e : Expr) : Expr
  | andOr (exps : List (Option Expr)) (op : String) : Expr
  | inE (col : String) (values : List Val) (isNot : Bool) : Expr

/-- A Go `interface{}` value as it is inspected by the expression algebra:
nil, an integer, a string, an `Expression`, or a `[]interface{}` slice. -/
inductive Val where
  | vnull : Val
  | vint (n : Int) : Val
  | vstr (s : String) : Val
  | vexpr (e : Expr) : Val
  | vlist (vs : List Val) : Val

end

/-- `Params` (`map[string]interface{}`) as an association list with unique
keys; `length` models Go's `len` on the map. -/
abbrev Params := List (String × Val)

/-- Go map read `p[k]`, returning `none` when the key is absent. -/
def pget (p : Params) (k : String) : Option Val :=
  match p with
  | [] => none
  | (k', v') :: rest => if k' = k then some v' else pget rest k

/-- Go map write `p[k] = v`: replace the existing binding or append a new
one, mirroring that Go map assignment does not grow the map on overwrite. -/
def pset (p : Params) (k : String) (v : Val) : Params :=
  match p with
  | [] => [(k, v)]
  | (k', v') :: rest => if k' = k then (k, v) :: rest else (k', v') :: pset rest k v

theorem pget_sizeOf_lt (p : Params) (k : String) (v : Val) (h : pget p k = some v) :
    sizeOf v < sizeOf p := by
  induction p with
  | nil => simp [pget] at h
  | cons kv rest ih =>
    obtain ⟨k', v'⟩ := kv
    by_cases hk : k' = k
    · simp [pget, hk] at h
      subst h
      simp only [List.cons.sizeOf_spec, Prod.mk.sizeOf_spec]
      omega
    · simp [pget, hk] at h
      have := ih h
      simp only [List.cons.sizeOf_spec]
      omega

theorem list_length_lt_sizeOf {α : Type} [SizeOf α] (l : List α) : l.length < sizeOf l := by
  induction l with
  | nil => simp
  | cons a rest ih =>
    simp only [List.length_cons, List.cons.sizeOf_spec]
    have : 0 ≤ sizeOf a := by positivity
    omega

/-- `sort.Strings`: ascending lexicographic sort of a name list. -/
def sortStrings (l : List String) : List String :=
  List.insertionSort (fun a b => a ≤ b) l

/-- `strings.Contains(s, c)` for a one-character pattern. -/
def containsChar (s : String) (c : Char) : Bool :=
  s.data.contains c

/-- `strings.Contains` on character lists (substring test). -/
def listContains (pat : List Char) : List Char → Bool
  | [] => pat.isEmpty
  | c :: cs => pat.isPrefixOf (c :: cs) || listContains pat cs

/-- Splits a character list at its last `.`, returning the parts before and
after it; `none` when no dot occurs (Go `strings.LastIndex(s, ".")`). -/
def splitAtLastDot (cs : List Char) : Option (List Char × List Char) :=
  match cs with
  | [] => none
  | c :: rest =>
    match splitAtLastDot rest with
    | some (before, after) => some (c :: before, after)
    | none => if c = '.' then some ([], rest) else none

/-- `DB.QuoteTableName` from `db.go`: pass through names containing `(` or
a `\x7b\x7b` marker, quote each dot-separated part otherwise. -/
def quoteTableName (db : Dialect) (s : String) : String :=
  if listContains ['('] s.data || listContains ['{', '{'] s.data then s
  else if ¬ listContains ['.'] s.data then db.quoteSimpleTableName s
  else String.intercalate "." ((s.splitOn ".").map db.quoteSimpleTableName)

/-- `DB.QuoteColumnName` from `db.go`: pass through names containing `(`,
`\x7b\x7b` or `[[`; otherwise quote the table prefix before the last dot and
the simple column name after it. -/
def quoteColumnName (db : Dialect) (s : String) : String :=
  if listContains ['('] s.data || listContains ['{', '{'] s.data
      || listContains ['[', '['] s.data then s
  else
    match splitAtLastDot s.data with
    | some (before, after) =>
      quoteTableName db (String.mk before) ++ "." ++ db.quoteSimpleColumnName (String.mk after)
    | none => db.quoteSimpleColumnName s

mutual

/-- `Expression.Build` for each expression variant, from `expression.go`.
The parameter set is threaded explicitly in place of Go's in-place map
mutation. -/
def buildExpr (db : Dialect) (e : Expr) (params : Params) : String × Params :=
  match e with
  | .exp s ps =>
    if ps.length = 0 then (s, params)
    else (s, ps.foldl (fun acc kv => pset acc kv.1 kv.2) params)
  | .hash entries =>
    if entries.length = 0 then ("", params)
    else
      let names := sortStrings (entries.map Prod.fst)
      let r := hashLoop db entries names params
      (if r.1.length = 1 then r.1.headD "" else String.intercalate " AND " r.1, r.2)
  | .notE sub =>
    let r := buildExpr db sub params
    (if r.1 = "" then "" else "NOT (" ++ r.1 ++ ")", r.2)
  | .andOr exps op =>
    if exps.length = 0 then ("", params)
    else
      let r := andOrLoop db exps params
      (if r.1.length = 1 then r.1.headD ""
       else "(" ++ String.intercalate (") " ++ op ++ " (") r.1 ++ ")", r.2)
  | .inE col values isNot => buildIn db col values isNot params
termination_by (sizeOf e, 0)
decreasing_by
  all_goals simp_wf
  all_goals apply Prod.Lex.left
  all_goals omega

/-- The body of `HashExp.Build`'s loop over the sorted key names: each key is
looked up in the map and rendered according to the dynamic type of its
value. -/
def hashLoop (db : Dialect) (entries : List (String × Val)) (names : List String)
    (params : Params) : List String × Params :=
  match names with
  | [] => ([], params)
  | name :: rest =>
    match hv : (pget entries name).getD Val.vnull with
    | .vnull =>
      let part := quoteColumnName db name ++ " IS NULL"
      let r := hashLoop db entries rest params
      (part :: r.1, r.2)
    | .vexpr sub =>
      let rs := buildExpr db sub params
      let r := hashLoop db entries rest rs.2
      (if rs.1 = "" then r.1 else ("(" ++ rs.1 ++ ")") :: r.1, r.2)
    | .vlist vs =>
      let rs := buildIn db name vs false params
      let r := hashLoop db entries rest rs.2
      (if rs.1 = "" then r.1 else rs.1 :: r.1, r.2)
    | v =>
      let pn := "p" ++ toString params.length
      let part := quoteColumnName db name ++ "=\x7b:" ++ pn ++ "\x7d"
      let r := hashLoop db entries rest (pset params pn v)
      (part :: r.1, r.2)
termination_by (sizeOf entries, names.length)
decreasing_by
  all_goals simp_wf
  all_goals first
  | (apply Prod.Lex.right
     omega)
  | (apply Prod.Lex.left
     have hs : sizeOf ((pget entries name).getD Val.vnull) < sizeOf entries + 1 := by
       have hpos := list_length_lt_sizeOf entries
       cases hp : pget entries name with
       | none => simp [hp]; omega
       | some w =>
         have := pget_sizeOf_lt entries name w hp
         simp [hp]
         omega
     rw [hv] at hs
     simp at hs
     omega)

/-- `InExp.Build` from `expression.go`: empty value lists render `0=1` or
the empty string, a single value collapses to `col=val` / `col<>val`, and
longer lists render an `IN`/`NOT IN` list. -/
def buildIn (db : Dialect) (col : String) (values : List Val) (isNot : Bool)
    (params : Params) : String × Params :=
  if values.length = 0 then (if isNot then "" else "0=1", params)
  else
    let r := inVals db values params
    let qcol := quoteColumnName db col
    if r.1.length = 1 then
      (qcol ++ (if isNot then "<>" else "=") ++ r.1.headD "", r.2)
    else
      (qcol ++ " " ++ (if isNot then "NOT IN" else "IN") ++ " ("
        ++ String.intercalate ", " r.1 ++ ")", r.2)
termination_by (sizeOf values, 1)
decreasing_by
  all_goals simp_wf
  all_goals apply Prod.Lex.right
  all_goals omega

/-- The loop of `InExp.Build` over its values: nil renders `NULL`, an
`Expression` renders its own fragment, any other value becomes a generated
placeholder named after the current parameter-set size. -/
def inVals (db : Dialect) (values : List Val) (params : Params) : List String × Params :=
  match values with
  | [] => ([], params)
  | v :: rest =>
    match v with
    | .vnull =>
      let r := inVals db rest params
      ("NULL" :: r.1, r.2)
    | .vexpr sub =>
      let rs := buildExpr db sub params
      let r := inVals db rest rs.2
      (rs.1 :: r.1, r.2)
    | v' =>
      let pn := "p" ++ toString params.length
      let r := inVals db rest (pset params pn v')
      (("\x7b:" ++ pn ++ "\x7d") :: r.1, r.2)
termination_by (sizeOf values, 0)
decreasing_by
  all_goals simp_wf
  all_goals apply Prod.Lex.left
  all_goals omega

/-- The loop of `AndOrExp.Build`: nil expressions are skipped and empty
fragments are dropped. -/
def andOrLoop (db : Dialect) (exps : List (Option Expr)) (params : Params) :
    List String × Params :=
  match exps with
  | [] => ([], params)
  | none :: rest => andOrLoop db rest params
  | some e :: rest =>
    let rs := buildExpr db e params
    let r := andOrLoop db rest rs.2
    (if rs.1 = "" then r.1 else rs.1 :: r.1, r.2)
termination_by (sizeOf exps, 0)
decreasing_by
  all_goals simp_wf
  all_goals apply Prod.Lex.left
  all_goals omega

end

theorem length_dropWhile_le {α : Type} (p : α → Bool) (l : List α) :
    (l.dropWhile p).length ≤ l.length := by
  induction l with
  | nil => simp [List.dropWhile]
  | cons a rest ih =>
    by_cases h : p a
    · simp [List.dropWhile, h]
      omega
    · simp [List.dropWhile, h]

/-- RE2 `\w` (ASCII word character), as used by `plRegex`. -/
def isWordChar (c : Char) : Bool :=
  c.isAlphanum || c = '_'

/-- RE2 `[\w\-\. ]` as used by `quoteRegex`. -/
def isQuoteChar (c : Char) : Bool :=
  isWordChar c || c = '-' || c = '.' || c = ' '

/-- The scanner of `plRegex` (`\x7b:\w+\x7d`): splits the input into literal
characters and placeholder names, finding the leftmost non-overlapping
matches exactly as `regexp.ReplaceAllStringFunc` does. -/
def scanPH (cs : List Char) : List (Char ⊕ String) :=
  match cs with
  | [] => []
  | c :: rest =>
    if c = '\x7b' ∧ rest.head? = some ':' then
      let body := rest.tail
      let w := body.takeWhile isWordChar
      match hd : body.dropWhile isWordChar with
      | c3 :: rest3 =>
        if c3 = '\x7d' ∧ w ≠ [] then Sum.inr (String.mk w) :: scanPH rest3
        else Sum.inl c :: scanPH rest
      | [] => Sum.inl c :: scanPH rest
  else Sum.inl c :: scanPH rest
termination_by cs.length
decreasing_by
  all_goals simp_wf
  · have h1 := length_dropWhile_le isWordChar body
    rw [hd] at h1
    have hb : body.length ≤ cs.length := by
      show cs.tail.length ≤ cs.length
      cases cs <;> simp
    simp only [List.length_cons] at h1 ⊢
    omega
  all_goals omega

/-- Replacement pass of `plRegex` in `DB.processSQL`: each match is replaced
by `GeneratePlaceholder(count)` for an incrementing count, and the matched
names are collected in occurrence order. The rebuilt SQL is kept as a
character list. -/
def renderPH (gen : Nat → String) (ts : List (Char ⊕ String)) (count : Nat) :
    List Char × List String :=
  match ts with
  | [] => ([], [])
  | Sum.inl c :: rest =>
    let r := renderPH gen rest count
    (c :: r.1, r.2)
  | Sum.inr name :: rest =>
    let r := renderPH gen rest (count + 1)
    ((gen count).data ++ r.1, name :: r.2)

/-- The scanner of `quoteRegex`
(`(\x7b\x7b[\w\-\. ]+\x7d\x7d|[[[\w\-\. ]+]])`): splits the input into
literal characters and bracketed identifier markers, `true` marking a
table (double-curly) marker and `false` a column (double-square) one. -/
def scanQuote (cs : List Char) : List (Char ⊕ (Bool × String)) :=
  match cs with
  | [] => []
  | c :: rest =>
    if c = '\x7b' ∧ rest.head? = some '\x7b' then
      let body := rest.tail
      let w := body.takeWhile isQuoteChar
      match hd : body.dropWhile isQuoteChar with
      | c3 :: c4 :: rest4 =>
        if c3 = '\x7d' ∧ c4 = '\x7d' ∧ w ≠ [] then Sum.inr (true, String.mk w) :: scanQuote rest4
        else Sum.inl c :: scanQuote rest
      | _ => Sum.inl c :: scanQuote rest
    else if c = '[' ∧ rest.head? = some '[' then
      let body := rest.tail
      let w := body.takeWhile isQuoteChar
      match hd : body.dropWhile isQuoteChar with
      | c3 :: c4 :: rest4 =>
        if c3 = ']' ∧ c4 = ']' ∧ w ≠ [] then Sum.inr (false, String.mk w) :: scanQuote rest4
        else Sum.inl c :: scanQuote rest
      | _ => Sum.inl c :: scanQuote rest
    else Sum.inl c :: scanQuote rest
termination_by cs.length
decreasing_by
  all_goals simp_wf
  all_goals first
  | omega
  | (have h1 := length_dropWhile_le isQuoteChar body
     rw [hd] at h1
     have hb : body.length ≤ cs.length := by
       show cs.tail.length ≤ cs.length
       cases cs <;> simp
     simp only [List.length_cons] at h1 ⊢
     omega)

/-- Replacement pass of `quoteRegex` in `DB.processSQL`: table markers are
quoted with `QuoteTableName`, column markers with `QuoteColumnName`. -/
def renderQuote (db : Dialect) (ts : List (Char ⊕ (Bool × String))) : List Char :=
  match ts with
  | [] => []
  | Sum.inl c :: rest => c :: renderQuote db rest
  | Sum.inr (isTable, w) :: rest =>
    (if isTable then quoteTableName db w else quoteColumnName db w).data ++ renderQuote db rest

/-- `DB.processSQL` from `db.go`: first replace `\x7b:name\x7d` placeholders
with the dialect's anonymous placeholders (recording the names in match
order), then quote `\x7b\x7bname\x7d\x7d` and `[[name]]` identifier
markers. -/
def processSQL (db : Dialect) (s : String) : String × List String :=
  let r := renderPH db.generatePlaceholder (scanPH s.data) 1
  (String.mk (renderQuote db (scanQuote r.1)), r.2)

/-- The loop of `replacePlaceholders` in `query.go`: resolve each
placeholder name against the bound parameters, failing on the first name
with no binding. -/
def rpLoop (placeholders : List String) (params : Params) : Except String (List Val) :=
  match placeholders with
  | [] => Except.ok []
  | name :: rest =>
    match pget params name with
    | some v =>
      match rpLoop rest params with
      | Except.ok vs => Except.ok (v :: vs)
      | Except.error e => Except.error e
    | none => Except.error ("Named parameter not found: " ++ name)

/-- `replacePlaceholders` from `query.go`: converts the ordered placeholder
list plus the named parameters into the ordered anonymous value list. -/
def replacePlaceholders (placeholders : List String) (params : Params) :
    Except String (List Val) :=
  if placeholders.length = 0 then Except.ok []
  else rpLoop placeholders params

/-- The `Query` struct from `query.go`, restricted to the fields the claims
are about: the original SQL, the processed SQL, the ordered placeholder
names, the bound parameters and `LastError`. -/
structure QueryM where
  sql : String
  rawSQL : String
  placeholders : List String
  params : Params
  lastError : Option String

/-- `NewQuery` from `query.go`: preprocess the SQL and start with empty
parameters and no error. -/
def newQuery (db : Dialect) (s : String) : QueryM :=
  let r := processSQL db s
  { sql := s, rawSQL := r.1, placeholders := r.2, params := [], lastError := none }

/-- `Query.Bind` from `query.go`. -/
def bindParams (q : QueryM) (ps : Params) : QueryM :=
  if q.params.length = 0 then { q with params := ps }
  else { q with params := ps.foldl (fun acc kv => pset acc kv.1 kv.2) q.params }

/-- The `BaseBuilder`'s dialect pieces (`builder.go`): `?` placeholders and
ANSI double-quote identifier quoting; this is what `StandardBuilder`
inherits, i.e. the Standard dialect. -/
def stdDialect : Dialect where
  generatePlaceholder := fun _ => "?"
  quoteSimpleTableName := fun s => if containsChar s '"' then s else "\"" ++ s ++ "\""
  quoteSimpleColumnName := fun s =>
    if containsChar s '"' || s = "*" then s else "\"" ++ s ++ "\""

/-- The loop of `BaseBuilder.Insert` over the sorted column names:
`Expression` values are inlined via their own `Build`, anything else becomes
a generated `pN` placeholder named after the current parameter-set size.
Returns (quoted column list, value fragment list, final parameters). -/
def insertLoop (db : Dialect) (cols : List (String × Val)) (names : List String)
    (params : Params) : List String × List String × Params :=
  match names with
  | [] => ([], [], params)
  | name :: rest =>
    let qcol := quoteColumnName db name
    match (pget cols name).getD Val.vnull with
    | .vexpr e =>
      let rs := buildExpr db e params
      let r := insertLoop db cols rest rs.2
      (qcol :: r.1, rs.1 :: r.2.1, r.2.2)
    | v =>
      let pn := "p" ++ toString params.length
      let r := insertLoop db cols rest (pset params pn v)
      (qcol :: r.1, ("\x7b:" ++ pn ++ "\x7d") :: r.2.1, r.2.2)

/-- `BaseBuilder.Insert` from `builder.go`: column names are sorted, quoted
and rendered with generated placeholders (or inlined `Expression`
fragments); the resulting SQL and parameters are wrapped in a `Query` via
`NewQuery(...).Bind(...)`. -/
def insertQuery (db : Dialect) (table : String) (cols : List (String × Val)) : QueryM :=
  let names := sortStrings (cols.map Prod.fst)
  let r := insertLoop db cols names []
  let sql :=
    if names.length = 0 then
      "INSERT INTO " ++ quoteTableName db table ++ " DEFAULT VALUES"
    else
      "INSERT INTO " ++ quoteTableName db table ++ " (" ++ String.intercalate ", " r.1
        ++ ") VALUES (" ++ String.intercalate ", " r.2.1 ++ ")"
  bindParams (newQuery db sql) r.2.2

/-- `BaseBuilder.Upsert` from `builder.go`: always fails, since the base
builder has no native upsert support. -/
def baseUpsert (db : Dialect) (table : String) (cols : List (String × Val))
    (constraints : List String) : QueryM :=
  let q := newQuery db ""
  { q with lastError := some "Upsert is not supported" }

/-- `SqliteBuilder.DropColumn` from `builder_sqlite.go`. -/
def sqliteDropColumn (db : Dialect) (table col : String) : QueryM :=
  let q := newQuery db ""
  { q with lastError := some "SQLite does not support dropping columns" }

/-- `SqliteBuilder.RenameColumn` from `builder_sqlite.go`. -/
def sqliteRenameColumn (db : Dialect) (table oldName newName : String) : QueryM :=
  let q := newQuery db ""
  { q with lastError := some "SQLite does not support renaming columns" }

/-- `SqliteBuilder.AlterColumn` from `builder_sqlite.go`. -/
def sqliteAlterColumn (db : Dialect) (table col typ : String) : QueryM :=
  let q := newQuery db ""
  { q with lastError := some "SQLite does not support altering column" }

/-- `SqliteBuilder.AddPrimaryKey` from `builder_sqlite.go`. -/
def sqliteAddPrimaryKey (db : Dialect) (table name : String) (cols : List String) : QueryM :=
  let q := newQuery db ""
  { q with lastError := some "SQLite does not support adding primary key" }

/-- `SqliteBuilder.DropPrimaryKey` from `builder_sqlite.go`. -/
def sqliteDropPrimaryKey (db : Dialect) (table name : String) : QueryM :=
  let q := newQuery db ""
  { q with lastError := some "SQLite does not support dropping primary key" }

/-- `SqliteBuilder.AddForeignKey` from `builder_sqlite.go`. -/
def sqliteAddForeignKey (db : Dialect) (table name : String) (cols refCols : List String)
    (refTable : String) (options : List String) : QueryM :=
  let q := newQuery db ""
  { q with lastError := some "SQLite does not support adding foreign keys" }

/-- `SqliteBuilder.DropForeignKey` from `builder_sqlite.go`. -/
def sqliteDropForeignKey (db : Dialect) (table name : String) : QueryM :=
  let q := newQuery db ""
  { q with lastError := some "SQLite does not support dropping foreign keys" }

/-- RE2 `\s` (ASCII whitespace class) as used by `orderRegex`. -/
def isGoSpace (c : Char) : Bool :=
  c = ' ' || c = '\t' || c = '\n' || c = '\x0c' || c = '\x0d'

/-- Matching helper for `orderRegex` on a reversed character list: succeeds
when the list starts with the reversed keyword (case-insensitively) followed
by at least one whitespace character, returning the keyword as written and
the remaining characters (still reversed) with the whitespace stripped. -/
def tryKw (kwRev : List Char) (r : List Char) : Option (List Char × List Char) :=
  if (r.take kwRev.length).map Char.toLower = kwRev then
    let after := r.drop kwRev.length
    if (after.takeWhile isGoSpace).isEmpty then none
    else some ((r.take kwRev.length).reverse, after.dropWhile isGoSpace)
  else none

/-- `orderRegex` (`\s+((?i)ASC|DESC)$`) from `query_builder.go`: when a
column ends in a whitespace-separated sort direction, return the column
text before the match and the direction as written. -/
def stripOrderDir (col : String) : Option (String × String) :=
  let r := col.data.reverse
  match tryKw ['c', 's', 'a'] r with
  | some (kw, before) => some (String.mk before.reverse, String.mk kw)
  | none =>
    match tryKw ['c', 's', 'e', 'd'] r with
    | some (kw, before) => some (String.mk before.reverse, String.mk kw)
    | none => none

/-- One column of `BaseQueryBuilder.BuildOrderBy`: quote the column, keeping
a trailing sort direction as a separate word. -/
def orderCol (db : Dialect) (col : String) : String :=
  match stripOrderDir col with
  | none => quoteColumnName db col
  | some (c, dir) => quoteColumnName db c ++ " " ++ dir

/-- `BaseQueryBuilder.BuildOrderBy` from `query_builder.go`. -/
def buildOrderBy (db : Dialect) (cols : List String) : String :=
  if cols.length = 0 then ""
  else "ORDER BY " ++ String.intercalate ", " (cols.map (orderCol db))

/-- `BaseQueryBuilder.BuildLimit` from `query_builder.go`: a negative limit
with a positive offset is replaced by 2^63-1, and the LIMIT/OFFSET pieces
are emitted only when nonnegative respectively positive. -/
def buildLimit (limit offset : Int) : String :=
  let limit := if limit < 0 ∧ offset > 0 then 9223372036854775807 else limit
  let sql := if limit ≥ 0 then "LIMIT " ++ toString limit else ""
  if offset ≤ 0 then sql
  else (if sql ≠ "" then sql ++ " " else sql) ++ "OFFSET " ++ toString offset

/-- `MssqlQueryBuilder.BuildOrderByAndLimit` from `builder_mssql.go`:
SQL-Server 2012 OFFSET/FETCH pagination, synthesizing
`ORDER BY (SELECT NULL)` when pagination is requested without ordering. -/
def mssqlBuildOrderByAndLimit (db : Dialect) (sql : String) (cols : List String)
    (limit offset : Int) : String :=
  let orderBy := buildOrderBy db cols
  if limit < 0 ∧ offset < 0 then
    if orderBy = "" then sql else sql ++ "\n" ++ orderBy
  else
    let orderBy := if orderBy = "" then "ORDER BY (SELECT NULL)" else orderBy
    let sql := sql ++ "\n" ++ orderBy
    let offset := if offset < 0 then 0 else offset
    let sql := sql ++ "\n" ++ ("OFFSET " ++ toString offset ++ " ROWS")
    if limit ≥ 0 then sql ++ "\n" ++ ("FETCH NEXT " ++ toString limit ++ " ROWS ONLY")
    else sql

/-- The shape of a Go struct type as `structInfo.build` inspects it:
`scalar` is any terminal field type (basic kinds, `sql.Scanner`
implementors, `time.Time`), `record` a nested struct to dive into, with
each field carrying (name, db-tag value, anonymous?, exported?, type). -/
inductive GType where
  | scalar : GType
  | record (fields : List (String × String × Bool × Bool × GType)) : GType

/-- A struct field: (name, `db` tag value, anonymous?, exported?, type). -/
abbrev GoFieldT := String × String × Bool × Bool × GType

/-- `fieldInfo` from `struct.go`. -/
structure FieldInfo where
  name : String
  dbName : String
  path : List Nat
deriving DecidableEq, Repr

/-- `structInfo` from `struct.go`, with the two maps as association lists. -/
structure StructInfo where
  nameMap : List (String × FieldInfo)
  dbNameMap : List (String × FieldInfo)
  pkNames : List String
deriving DecidableEq, Repr

/-- Go map read on a `fieldInfo` map. -/
def mlookup (m : List (String × FieldInfo)) (k : String) : Option FieldInfo :=
  match m with
  | [] => none
  | (k', v') :: rest => if k' = k then some v' else mlookup rest k

/-- Go map write on a `fieldInfo` map (replace or append). -/
def mset (m : List (String × FieldInfo)) (k : String) (v : FieldInfo) :
    List (String × FieldInfo) :=
  match m with
  | [] => [(k, v)]
  | (k', v') :: rest => if k' = k then (k, v) :: rest else (k', v') :: mset rest k v

/-- The naming policy applied by `structInfo.build` when a field has no tag
name: use the mapper when one is set, the field name otherwise. -/
def applyMapper (mapper : Option (String → String)) (n : String) : String :=
  match mapper with
  | some m => m n
  | none => n

/-- `parseTag` from `struct.go`. -/
def parseTag (tag : String) : String × Bool :=
  if tag = "pk" then ("", true)
  else if tag.startsWith "pk," then (tag.drop 3, true)
  else (tag, false)

/-- `concat` from `struct.go`. -/
def concat (s1 s2 : String) : String :=
  if s1 = "" then s2 else if s2 = "" then s1 else s1 ++ "." ++ s2

/-- The map/pk update performed by `structInfo.build` when a terminal field
wins the shadowing check. -/
def siInsert (si : StructInfo) (fi : FieldInfo) (isPK : Bool) : StructInfo :=
  { nameMap := mset si.nameMap fi.name fi
    dbNameMap := mset si.dbNameMap fi.dbName fi
    pkNames := si.pkNames ++ (if isPK then [fi.name] else []) }

mutual

/-- One iteration of the field loop of `structInfo.build`: skip unexported
non-anonymous and `-`-tagged fields, resolve the db name via the tag or the
mapper, recurse into a nested record type, and record a terminal field
subject to the shortest-path shadowing rule. -/
def siProcessField (mapper : Option (String → String)) (f : GoFieldT) (i : Nat)
    (path : List Nat) (namePre dbNamePre : String) (si : StructInfo) : StructInfo :=
  match f with
  | (fname, tag, anon, exported, ftype) =>
    if (¬ anon ∧ ¬ exported) ∨ tag = "-" then si
    else
      match ftype with
      | GType.record subfields =>
        siBuildType mapper subfields (path ++ [i])
          (concat namePre (if anon then "" else fname))
          (concat dbNamePre
            (if (parseTag tag).1 = "" ∧ ¬ anon then applyMapper mapper fname
             else (parseTag tag).1))
          si
      | GType.scalar =>
        let dbName :=
          if (parseTag tag).1 = "" ∧ ¬ anon then applyMapper mapper fname else (parseTag tag).1
        if dbName ≠ "" then
          let fi : FieldInfo :=
            { name := concat namePre (if anon then "" else fname)
              dbName := concat dbNamePre dbName
              path := path ++ [i] }
          match mlookup si.nameMap fi.name with
          | none => siInsert si fi (parseTag tag).2
          | some old =>
            if (path ++ [i]).length < old.path.length then siInsert si fi (parseTag tag).2
            else si
        else si
termination_by (sizeOf f, 0)
decreasing_by
  all_goals simp_wf
  all_goals apply Prod.Lex.left
  all_goals omega

/-- The field loop of `structInfo.build`, processing fields left to right
with their indices. -/
def siBuildFields (mapper : Option (String → String)) (fields : List GoFieldT) (i : Nat)
    (path : List Nat) (namePre dbNamePre : String) (si : StructInfo) : StructInfo :=
  match fields with
  | [] => si
  | f :: rest =>
    siBuildFields mapper rest (i + 1) path namePre dbNamePre
      (siProcessField mapper f i path namePre dbNamePre si)
termination_by (sizeOf fields, 0)
decreasing_by
  all_goals simp_wf
  all_goals apply Prod.Lex.left
  all_goals omega

/-- `structInfo.build` from `struct.go` on a struct type's field list: run
the field loop, then, when no primary key has been recorded, infer a field
named `ID` — or failing that `Id` — as the sole primary key. This tail
check runs at the end of every (also nested) build pass. -/
def siBuildType (mapper : Option (String → String)) (fields : List GoFieldT)
    (path : List Nat) (namePre dbNamePre : String) (si : StructInfo) : StructInfo :=
  let si2 := siBuildFields mapper fields 0 path namePre dbNamePre si
  if si2.pkNames.length = 0 then
    if (mlookup si2.nameMap "ID").isSome then { si2 with pkNames := si2.pkNames ++ ["ID"] }
    else if (mlookup si2.nameMap "Id").isSome then { si2 with pkNames := si2.pkNames ++ ["Id"] }
    else si2
  else si2
termination_by (sizeOf fields, 1)
decreasing_by
  all_goals simp_wf
  all_goals apply Prod.Lex.right
  all_goals omega

end

/-- `getStructInfo` from `struct.go`: build the column mapping of a struct
type from scratch (the cache only memoizes this pure computation). -/
def structInfoOf (t : GType) (mapper : Option (String → String)) : StructInfo :=
  match t with
  | GType.scalar => { nameMap := [], dbNameMap := [], pkNames := [] }
  | GType.record fields => siBuildType mapper fields [] "" "" { nameMap := [], dbNameMap := [], pkNames := [] }

theorem processSQL_empty (db : Dialect) : processSQL db "" = ("", []) := by
  have h : ("" : String).data = [] := rfl
  simp [processSQL, h, scanPH, renderPH, scanQuote, renderQuote]

/-- Claim C4: for every column name, `IN` with an empty value list renders
exactly `0=1` and `NOT IN` with an empty value list renders exactly the
empty string, and in both cases the parameter set is unchanged. -/
theorem claim_C4 (db : Dialect) (col : String) (params : Params) :
    buildExpr db (Expr.inE col [] false) params = ("0=1", params)
    ∧ buildExpr db (Expr.inE col [] true) params = ("", params) := by
  constructor <;> simp [buildExpr, buildIn]

/-- Claim C9: a set-membership expression with exactly one value collapses
to `col=val` (respectively `col<>val` when negated), where `val` is `NULL`
for a nil element, the sub-fragment for an `Expression` element, and the
generated placeholder otherwise. -/
theorem claim_C9 (db : Dialect) (col : String) (v : Val) (isNot : Bool) (params : Params) :
    buildExpr db (Expr.inE col [v] isNot) params =
      match v with
      | Val.vnull =>
        (quoteColumnName db col ++ (if isNot then "<>" else "=") ++ "NULL", params)
      | Val.vexpr sub =>
        (quoteColumnName db col ++ (if isNot then "<>" else "=") ++ (buildExpr db sub params).1,
          (buildExpr db sub params).2)
      | w =>
        (quoteColumnName db col ++ (if isNot then "<>" else "=")
            ++ ("\x7b:" ++ ("p" ++ toString params.length) ++ "\x7d"),
          pset params ("p" ++ toString params.length) w) := by
  cases v <;> simp [buildExpr, buildIn, inVals]

/-- Claim C10: `BaseQueryBuilder.BuildLimit` with a negative limit renders
`LIMIT 9223372036854775807 OFFSET m` when the offset is positive and the
empty string when the offset is zero or less. -/
theorem claim_C10 (limit offset : Int) (hneg : limit < 0) :
    (0 < offset →
      buildLimit limit offset = "LIMIT 9223372036854775807 OFFSET " ++ toString offset)
    ∧ (offset ≤ 0 → buildLimit limit offset = "") := by
  constructor
  · intro h
    have hc : limit < 0 ∧ offset > 0 := ⟨hneg, h⟩
    have hno : ¬ offset ≤ 0 := by omega
    simp only [buildLimit, if_pos hc]
    norm_num
    rw [if_neg hno]
    have h1 : ¬ ("LIMIT " ++ toString (9223372036854775807 : Int) = "") := by decide
    rw [if_neg h1]
    congr 1
  · intro h
    have hc : ¬ (limit < 0 ∧ offset > 0) := by omega
    have hl : ¬ limit ≥ 0 := by omega
    simp only [buildLimit, if_neg hc, if_neg hl, if_pos h]

theorem claim_C10_witness :
    ((-1 : Int) < 0 ∧ (0 : Int) < 2 ∧ (2 : Int) ≤ 2
      ∧ buildLimit (-1) 2 = "LIMIT 9223372036854775807 OFFSET 2")
    ∧ ((-1 : Int) < 0 ∧ (0 : Int) ≤ 0 ∧ buildLimit (-1) 0 = "") := by
  refine ⟨⟨by decide, by decide, by decide, ?_⟩, ⟨by decide, by decide, ?_⟩⟩
  · rw [(claim_C10 (-1) 2 (by decide)).1 (by decide)]
    decide
  · exact (claim_C10 (-1) 0 (by decide)).2 (by decide)

/-- Claim C7: the MSSQL pagination renderer, given `limit=10`, `offset=2`
and no ordering columns, appends a synthesized `ORDER BY (SELECT NULL)`
followed by `OFFSET 2 ROWS` and `FETCH NEXT 10 ROWS ONLY`; when both limit
and offset are negative it returns the input SQL with at most the caller's
ORDER BY appended and no OFFSET/FETCH clause. -/
theorem claim_C7 (db : Dialect) (sql : String) (cols : List String) (limit offset : Int) :
    mssqlBuildOrderByAndLimit db sql [] 10 2
      = sql ++ "\nORDER BY (SELECT NULL)\nOFFSET 2 ROWS\nFETCH NEXT 10 ROWS ONLY"
    ∧ (limit < 0 → offset < 0 →
        mssqlBuildOrderByAndLimit db sql cols limit offset = sql
        ∨ mssqlBuildOrderByAndLimit db sql cols limit offset
            = sql ++ "\n" ++ buildOrderBy db cols) := by
  constructor
  · have hob : buildOrderBy db [] = "" := by simp [buildOrderBy]
    simp only [mssqlBuildOrderByAndLimit, hob]
    norm_num
    simp only [String.append_assoc]
    congr 1
  · intro h1 h2
    simp only [mssqlBuildOrderByAndLimit, if_pos (And.intro h1 h2)]
    by_cases hob : buildOrderBy db cols = ""
    · left
      rw [if_pos hob]
    · right
      rw [if_neg hob, String.append_assoc]

theorem claim_C7_witness :
    ((-1 : Int) < 0 ∧ (-1 : Int) < 0
      ∧ (mssqlBuildOrderByAndLimit stdDialect "SELECT *" ["name"] (-1) (-1) = "SELECT *"
        ∨ mssqlBuildOrderByAndLimit stdDialect "SELECT *" ["name"] (-1) (-1)
            = "SELECT *" ++ "\n" ++ buildOrderBy stdDialect ["name"]))
    ∧ mssqlBuildOrderByAndLimit stdDialect "SELECT *" [] 10 2
        = "SELECT *" ++ "\nORDER BY (SELECT NULL)\nOFFSET 2 ROWS\nFETCH NEXT 10 ROWS ONLY" :=
  ⟨⟨by decide, by decide,
    (claim_C7 stdDialect "SELECT *" ["name"] (-1) (-1)).2 (by decide) (by decide)⟩,
   (claim_C7 stdDialect "SELECT *" ["name"] (-1) (-1)).1⟩

/-- Claim C6: each SQLite DDL operation the dialect cannot express, and the
base builder's upsert, fail with an operation-not-supported error while the
returned query carries no SQL at all. -/
theorem claim_C6 (db : Dialect) (table col typ oldName newName name refTable : String)
    (cols : List (String × Val)) (colNames refCols options constraints : List String) :
    ((sqliteDropColumn db table col).lastError
        = some "SQLite does not support dropping columns"
      ∧ (sqliteDropColumn db table col).sql = ""
      ∧ (sqliteDropColumn db table col).rawSQL = "")
    ∧ ((sqliteRenameColumn db table oldName newName).lastError
        = some "SQLite does not support renaming columns"
      ∧ (sqliteRenameColumn db table oldName newName).sql = ""
      ∧ (sqliteRenameColumn db table oldName newName).rawSQL = "")
    ∧ ((sqliteAlterColumn db table col typ).lastError
        = some "SQLite does not support altering column"
      ∧ (sqliteAlterColumn db table col typ).sql = ""
      ∧ (sqliteAlterColumn db table col typ).rawSQL = "")
    ∧ ((sqliteAddPrimaryKey db table name colNames).lastError
        = some "SQLite does not support adding primary key"
      ∧ (sqliteAddPrimaryKey db table name colNames).sql = ""
      ∧ (sqliteAddPrimaryKey db table name colNames).rawSQL = "")
    ∧ ((sqliteDropPrimaryKey db table name).lastError
        = some "SQLite does not support dropping primary key"
      ∧ (sqliteDropPrimaryKey db table name).sql = ""
      ∧ (sqliteDropPrimaryKey db table name).rawSQL = "")
    ∧ ((sqliteAddForeignKey db table name colNames refCols refTable options).lastError
        = some "SQLite does not support adding foreign keys"
      ∧ (sqliteAddForeignKey db table name colNames refCols refTable options).sql = ""
      ∧ (sqliteAddForeignKey db table name colNames refCols refTable options).rawSQL = "")
    ∧ ((sqliteDropForeignKey db table name).lastError
        = some "SQLite does not support dropping foreign keys"
      ∧ (sqliteDropForeignKey db table name).sql = ""
      ∧ (sqliteDropForeignKey db table name).rawSQL = "")
    ∧ ((baseUpsert db table cols constraints).lastError = some "Upsert is not supported"
      ∧ (baseUpsert db table cols constraints).sql = ""
      ∧ (baseUpsert db table cols constraints).rawSQL = "") := by
  have he := processSQL_empty db
  refine ⟨⟨rfl, rfl, ?_⟩, ⟨rfl, rfl, ?_⟩, ⟨rfl, rfl, ?_⟩, ⟨rfl, rfl, ?_⟩, ⟨rfl, rfl, ?_⟩,
    ⟨rfl, rfl, ?_⟩, ⟨rfl, rfl, ?_⟩, ⟨rfl, rfl, ?_⟩⟩ <;>
    simp [sqliteDropColumn, sqliteRenameColumn, sqliteAlterColumn, sqliteAddPrimaryKey,
      sqliteDropPrimaryKey, sqliteAddForeignKey, sqliteDropForeignKey, baseUpsert,
      newQuery, he]

theorem rpLoop_ok (ph : List String) (params : Params)
    (hall : ∀ n ∈ ph, (pget params n).isSome) :
    rpLoop ph params = Except.ok (ph.map (fun n => (pget params n).getD Val.vnull)) := by
  induction ph with
  | nil => simp [rpLoop]
  | cons name rest ih =>
    obtain ⟨v, hv⟩ := Option.isSome_iff_exists.mp (hall name (by simp))
    have ihh := ih (fun n hn => hall n (by simp [hn]))
    simp [rpLoop, hv, ihh]

theorem rpLoop_error (ph : List String) (params : Params) (n₀ : String)
    (hfind : ph.find? (fun n => (pget params n).isNone) = some n₀) :
    rpLoop ph params = Except.error ("Named parameter not found: " ++ n₀) := by
  induction ph with
  | nil => simp [List.find?] at hfind
  | cons name rest ih =>
    by_cases hn : (pget params name).isNone
    · rw [List.find?_cons_of_pos _ (by simpa using hn)] at hfind
      simp only [Option.some.injEq] at hfind
      subst hfind
      simp [rpLoop, Option.isNone_iff_eq_none.mp hn]
    · rw [List.find?_cons_of_neg _ (by simpa using hn)] at hfind
      cases hpv : pget params name with
      | none => simp [hpv] at hn
      | some v => simp [rpLoop, hpv, ih hfind]

/-- Claim C2: when every referenced placeholder name has a bound value,
`replacePlaceholders` succeeds and returns the lookups in placeholder order;
when some name is unbound, it fails with a missing-named-parameter error
naming exactly the first such name. -/
theorem claim_C2 (ph : List String) (params : Params) :
    ((∀ n ∈ ph, (pget params n).isSome) →
      replacePlaceholders ph params
        = Except.ok (ph.map (fun n => (pget params n).getD Val.vnull)))
    ∧ (∀ n₀, ph.find? (fun n => (pget params n).isNone) = some n₀ →
      replacePlaceholders ph params = Except.error ("Named parameter not found: " ++ n₀)) := by
  constructor
  · intro hall
    cases ph with
    | nil => simp [replacePlaceholders]
    | cons name rest =>
      rw [replacePlaceholders, if_neg (by simp)]
      exact rpLoop_ok _ _ hall
  · intro n₀ hfind
    cases ph with
    | nil => simp [List.find?] at hfind
    | cons name rest =>
      rw [replacePlaceholders, if_neg (by simp)]
      exact rpLoop_error _ _ _ hfind

theorem claim_C2_witness :
    (∀ n ∈ ["a", "b", "a"], (pget [("a", Val.vint 1), ("b", Val.vstr "x")] n).isSome)
    ∧ replacePlaceholders ["a", "b", "a"] [("a", Val.vint 1), ("b", Val.vstr "x")]
        = Except.ok [Val.vint 1, Val.vstr "x", Val.vint 1]
    ∧ (["a", "z"].find? (fun n => (pget [("a", Val.vint 1)] n).isNone) = some "z")
    ∧ replacePlaceholders ["a", "z"] [("a", Val.vint 1)]
        = Except.error "Named parameter not found: z" := by
  refine ⟨by decide, ?_, by decide, ?_⟩
  · exact (claim_C2 ["a", "b", "a"] [("a", Val.vint 1), ("b", Val.vstr "x")]).1 (by decide)
  · exact (claim_C2 ["a", "z"] [("a", Val.vint 1)]).2 "z" (by decide)

theorem pget_congr_of_perm (e₁ e₂ : List (String × Val)) (h : e₁.Perm e₂)
    (hnd : (e₁.map Prod.fst).Nodup) (k : String) : pget e₁ k = pget e₂ k := by
  induction h with
  | nil => rfl
  | cons a hl ih =>
    obtain ⟨ka, va⟩ := a
    by_cases hk : ka = k
    · simp [pget, hk]
    · simp only [List.map_cons, List.nodup_cons] at hnd
      simp [pget, hk, ih hnd.2]
  | swap x y l =>
    obtain ⟨kx, vx⟩ := x
    obtain ⟨ky, vy⟩ := y
    simp only [List.map_cons, List.nodup_cons, List.mem_cons] at hnd
    have hxy : ky ≠ kx := fun hh => hnd.1 (Or.inl hh)
    by_cases hk1 : ky = k
    · subst hk1
      have hke : kx ≠ ky := fun hh => hxy hh.symm
      simp [pget, hke]
    · by_cases hk2 : kx = k
      · subst hk2
        simp [pget, hk1]
      · simp [pget, hk1, hk2]
  | trans h₁ h₂ ih₁ ih₂ =>
    have hnd₂ := ((h₁.map Prod.fst).nodup_iff).mp hnd
    exact (ih₁ hnd).trans (ih₂ hnd₂)

theorem hashLoop_congr (db : Dialect) (e₁ e₂ : List (String × Val))
    (hpg : ∀ k, pget e₁ k = pget e₂ k) (names : List String) (params : Params) :
    hashLoop db e₁ names params = hashLoop db e₂ names params := by
  induction names generalizing params with
  | nil => simp [hashLoop]
  | cons name rest ih =>
    simp only [hashLoop]
    rw [hpg name]
    cases hval : (pget e₂ name).getD Val.vnull with
    | vnull => simp [ih]
    | vint n => simp [ih]
    | vstr s => simp [ih]
    | vexpr sub => simp [ih]
    | vlist vs => simp [ih]

theorem sortStrings_sorted (l : List String) :
    (sortStrings l).Sorted (fun a b => a ≤ b) := by
  have : IsTotal String (fun a b : String => a ≤ b) := ⟨fun a b => le_total a b⟩
  have : IsTrans String (fun a b : String => a ≤ b) := ⟨fun a b c => le_trans⟩
  exact List.sorted_insertionSort _ l

theorem sortStrings_perm (l : List String) : (sortStrings l).Perm l :=
  List.perm_insertionSort _ l

theorem sortStrings_eq_of_perm (l₁ l₂ : List String) (h : l₁.Perm l₂) :
    sortStrings l₁ = sortStrings l₂ := by
  have : IsAntisymm String (fun a b : String => a ≤ b) := ⟨fun a b h1 h2 => le_antisymm h1 h2⟩
  exact List.eq_of_perm_of_sorted
    ((sortStrings_perm l₁).trans (h.trans (sortStrings_perm l₂).symm))
    (sortStrings_sorted l₁) (sortStrings_sorted l₂)

/-- Claim C3: `HashExp.Build` renders a non-empty field-equality map by its
keys in ascending lexicographic order, so building any two association-list
representations of the same logical map against equal parameter sets yields
identical output. -/
theorem claim_C3 (db : Dialect) (params : Params) (e₁ e₂ : List (String × Val))
    (hperm : e₁.Perm e₂) (hnd : (e₁.map Prod.fst).Nodup) (hne : e₁ ≠ []) :
    buildExpr db (Expr.hash e₁) params = buildExpr db (Expr.hash e₂) params
    ∧ ∃ names, names.Sorted (fun a b => a ≤ b) ∧ names.Perm (e₁.map Prod.fst)
      ∧ buildExpr db (Expr.hash e₁) params =
          (if (hashLoop db e₁ names params).1.length = 1
            then (hashLoop db e₁ names params).1.headD ""
            else String.intercalate " AND " (hashLoop db e₁ names params).1,
            (hashLoop db e₁ names params).2) := by
  have hne₂ : e₂ ≠ [] := fun hh => hne (List.Perm.eq_nil (hh ▸ hperm))
  have h1 : ¬ e₁.length = 0 := by simpa [List.length_eq_zero] using hne
  have h2 : ¬ e₂.length = 0 := by simpa [List.length_eq_zero] using hne₂
  have hkeys : sortStrings (e₁.map Prod.fst) = sortStrings (e₂.map Prod.fst) :=
    sortStrings_eq_of_perm _ _ (hperm.map Prod.fst)
  constructor
  · simp only [buildExpr, if_neg h1, if_neg h2]
    rw [hkeys, hashLoop_congr db e₁ e₂ (pget_congr_of_perm e₁ e₂ hperm hnd)]
  · refine ⟨sortStrings (e₁.map Prod.fst), sortStrings_sorted _, sortStrings_perm _, ?_⟩
    simp only [buildExpr, if_neg h1]

theorem claim_C3_witness :
    ([("b", Val.vint 1), ("a", Val.vint 2)].Perm [("a", Val.vint 2), ("b", Val.vint 1)])
    ∧ ([("b", Val.vint 1), ("a", Val.vint 2)].map Prod.fst).Nodup
    ∧ ([("b", Val.vint 1), ("a", Val.vint 2)] : List (String × Val)) ≠ []
    ∧ buildExpr stdDialect (Expr.hash [("b", Val.vint 1), ("a", Val.vint 2)]) []
        = buildExpr stdDialect (Expr.hash [("a", Val.vint 2), ("b", Val.vint 1)]) [] := by
  refine ⟨List.Perm.swap _ _ _, by decide, by simp, ?_⟩
  exact (claim_C3 stdDialect [] [("b", Val.vint 1), ("a", Val.vint 2)]
    [("a", Val.vint 2), ("b", Val.vint 1)] (List.Perm.swap _ _ _) (by decide) (by simp)).1

/-- The struct-info state after the field loop of a top-level build pass,
before the primary-key inference tail. -/
def siAfterFields (fields : List GoFieldT) (mapper : Option (String → String)) : StructInfo :=
  siBuildFields mapper fields 0 [] "" "" { nameMap := [], dbNameMap := [], pkNames := [] }

theorem siBuildFields_pk_of_scalar (mapper : Option (String → String))
    (fields : List GoFieldT) (i : Nat) (path : List Nat) (namePre dbNamePre : String)
    (si : StructInfo)
    (hall : ∀ f ∈ fields, (parseTag f.2.1).2 = false ∧ f.2.2.2.2 = GType.scalar) :
    (siBuildFields mapper fields i path namePre dbNamePre si).pkNames = si.pkNames := by
  induction fields generalizing i si with
  | nil => simp [siBuildFields]
  | cons f rest ih =>
    obtain ⟨fname, tag, anon, exported, ftype⟩ := f
    have h1 := hall _ (List.mem_cons_self _ _)
    simp only at h1
    have hrest : ∀ f ∈ rest, (parseTag f.2.1).2 = false ∧ f.2.2.2.2 = GType.scalar :=
      fun f hf => hall f (List.mem_cons_of_mem _ hf)
    rw [siBuildFields, ih _ _ hrest]
    simp only [siProcessField.eq_def]
    rw [h1.2]
    by_cases hskip : (¬ anon ∧ ¬ exported) ∨ tag = "-"
    · rw [if_pos hskip]
    · rw [if_neg hskip]
      simp only
      repeat' split
      all_goals simp [siInsert, h1.1]

/-- Claim C8 (counterexample): on a struct whose only field is named `Id`
(no `ID` field, no pk tag), the build infers `Id` as primary key, so the
claim's "no `ID` field means no primary-key paths" fails. -/
theorem claim_C8_counterexample :
    (structInfoOf (GType.record [("Id", "", false, true, GType.scalar)]) none).pkNames = ["Id"]
    ∧ (structInfoOf (GType.record [("Id", "", false, true, GType.scalar)]) none).pkNames
        ≠ [] := by
  have h : (structInfoOf (GType.record [("Id", "", false, true, GType.scalar)]) none).pkNames
      = ["Id"] := by
    simp +decide [structInfoOf, siBuildType, siBuildFields, siProcessField.eq_def, parseTag, concat, mlookup, mset, siInsert, applyMapper]
  exact ⟨h, by rw [h]; simp⟩

/-- Claim C8 (amended): at the end of a build pass whose field loop recorded
no primary key, a field with logical name exactly `ID` is inferred as the
sole primary key; failing that, a field with logical name exactly `Id`; and
with neither, the pass records no primary-key paths. A field loop over
scalar fields none of which is pk-tagged records no primary key. -/
theorem claim_C8_pk_inference (fields : List GoFieldT) (mapper : Option (String → String)) :
    ((siAfterFields fields mapper).pkNames = [] →
      (mlookup (siAfterFields fields mapper).nameMap "ID").isSome →
      (structInfoOf (GType.record fields) mapper).pkNames = ["ID"])
    ∧ ((siAfterFields fields mapper).pkNames = [] →
      mlookup (siAfterFields fields mapper).nameMap "ID" = none →
      (mlookup (siAfterFields fields mapper).nameMap "Id").isSome →
      (structInfoOf (GType.record fields) mapper).pkNames = ["Id"])
    ∧ ((siAfterFields fields mapper).pkNames = [] →
      mlookup (siAfterFields fields mapper).nameMap "ID" = none →
      mlookup (siAfterFields fields mapper).nameMap "Id" = none →
      (structInfoOf (GType.record fields) mapper).pkNames = [])
    ∧ ((∀ f ∈ fields, (parseTag f.2.1).2 = false ∧ f.2.2.2.2 = GType.scalar) →
      (siAfterFields fields mapper).pkNames = []) := by
  refine ⟨?_, ?_, ?_, ?_⟩
  · intro hpk hid
    simp only [structInfoOf, siBuildType]
    rw [show siBuildFields mapper fields 0 [] "" ""
        { nameMap := [], dbNameMap := [], pkNames := [] } = siAfterFields fields mapper from rfl]
    simp [hpk, hid]
  · intro hpk hid1 hid2
    simp only [structInfoOf, siBuildType]
    rw [show siBuildFields mapper fields 0 [] "" ""
        { nameMap := [], dbNameMap := [], pkNames := [] } = siAfterFields fields mapper from rfl]
    simp [hpk, hid1, hid2]
  · intro hpk hid1 hid2
    simp only [structInfoOf, siBuildType]
    rw [show siBuildFields mapper fields 0 [] "" ""
        { nameMap := [], dbNameMap := [], pkNames := [] } = siAfterFields fields mapper from rfl]
    simp [hpk, hid1, hid2]
  · intro hall
    exact siBuildFields_pk_of_scalar mapper fields 0 [] "" "" _ hall

theorem claim_C8_witness :
    ((siAfterFields [("ID", "", false, true, GType.scalar)] none).pkNames = []
      ∧ (mlookup (siAfterFields [("ID", "", false, true, GType.scalar)] none).nameMap
          "ID").isSome
      ∧ (structInfoOf (GType.record [("ID", "", false, true, GType.scalar)]) none).pkNames
          = ["ID"])
    ∧ ((siAfterFields [("Name", "", false, true, GType.scalar)] none).pkNames = []
      ∧ mlookup (siAfterFields [("Name", "", false, true, GType.scalar)] none).nameMap "ID"
          = none
      ∧ mlookup (siAfterFields [("Name", "", false, true, GType.scalar)] none).nameMap "Id"
          = none
      ∧ (structInfoOf (GType.record [("Name", "", false, true, GType.scalar)]) none).pkNames
          = []) := by
  have h1 : (siAfterFields [("ID", "", false, true, GType.scalar)] none).pkNames = [] := by
    simp +decide [siAfterFields, siBuildFields, siProcessField.eq_def, parseTag, concat, siInsert, mset, applyMapper]
  have h2 : (mlookup (siAfterFields [("ID", "", false, true, GType.scalar)] none).nameMap
      "ID").isSome := by
    simp +decide [siAfterFields, siBuildFields, siProcessField.eq_def, parseTag, concat, siInsert, mset, mlookup, applyMapper]
  have h4 : (siAfterFields [("Name", "", false, true, GType.scalar)] none).pkNames = [] := by
    simp +decide [siAfterFields, siBuildFields, siProcessField.eq_def, parseTag, concat, siInsert, mset, applyMapper]
  have h5 : mlookup (siAfterFields [("Name", "", false, true, GType.scalar)] none).nameMap "ID"
      = none := by
    simp +decide [siAfterFields, siBuildFields, siProcessField.eq_def, parseTag, concat, siInsert, mset, mlookup, applyMapper]
  have h6 : mlookup (siAfterFields [("Name", "", false, true, GType.scalar)] none).nameMap "Id"
      = none := by
    simp +decide [siAfterFields, siBuildFields, siProcessField.eq_def, parseTag, concat, siInsert, mset, mlookup, applyMapper]
  exact ⟨⟨h1, h2, (claim_C8_pk_inference [("ID", "", false, true, GType.scalar)] none).1 h1 h2⟩,
    ⟨h4, h5, h6,
      (claim_C8_pk_inference [("Name", "", false, true, GType.scalar)] none).2.2.1 h4 h5 h6⟩⟩

theorem toDigitsCore_digits (fuel : Nat) : ∀ (n : Nat) (acc : List Char), 0 < n → n < fuel →
    Nat.toDigitsCore 10 fuel n acc
      = ((Nat.digits 10 n).map Nat.digitChar).reverse ++ acc := by
  induction fuel with
  | zero => intro n acc h0 hf; omega
  | succ f ih =>
    intro n acc h0 hf
    rw [Nat.toDigitsCore]
    have hd : Nat.digits 10 n = n % 10 :: Nat.digits 10 (n / 10) :=
      Nat.digits_def' (by norm_num) h0
    by_cases hq : n / 10 = 0
    · simp only [hq, if_pos]
      rw [hd, hq]
      simp
    · simp only [hq, if_neg, ite_false]
      have hlt : n / 10 < n := Nat.div_lt_self h0 (by norm_num)
      rw [ih (n / 10) _ (Nat.pos_of_ne_zero hq) (by omega)]
      rw [hd]
      simp

theorem digits_map_digitChar_inj : ∀ (l₁ l₂ : List Nat), (∀ a ∈ l₁, a < 10) →
    (∀ a ∈ l₂, a < 10) → l₁.map Nat.digitChar = l₂.map Nat.digitChar → l₁ = l₂ := by
  intro l₁
  induction l₁ with
  | nil =>
    intro l₂ _ _ h
    cases l₂ <;> simp_all
  | cons a t ih =>
    intro l₂ h1 h2 h
    cases l₂ with
    | nil => simp at h
    | cons b t₂ =>
      simp only [List.map_cons, List.cons.injEq] at h
      have ha : a < 10 := h1 a (by simp)
      have hb : b < 10 := h2 b (by simp)
      have hab : a = b := by
        have hc := h.1
        interval_cases a <;> interval_cases b <;> first | rfl | exact absurd hc (by decide)
      subst hab
      rw [ih t₂ (fun x hx => h1 x (by simp [hx])) (fun x hx => h2 x (by simp [hx])) h.2]

theorem natRepr_pos_eq (k : Nat) (hk : 0 < k) :
    Nat.repr k = (((Nat.digits 10 k).map Nat.digitChar).reverse).asString := by
  rw [Nat.repr, Nat.toDigits]
  rw [toDigitsCore_digits (k + 1) k [] hk (by omega)]
  simp

theorem digits_eq_zero_digit_absurd (n : Nat) (hn : 0 < n)
    (h : ((Nat.digits 10 n).map Nat.digitChar).reverse = ['0']) : False := by
  have h2 : (Nat.digits 10 n).map Nat.digitChar = ['0'] := by
    have := congrArg List.reverse h
    simpa using this
  cases hd : Nat.digits 10 n with
  | nil => rw [hd] at h2; simp at h2
  | cons a l =>
    rw [hd] at h2
    simp only [List.map_cons, List.cons.injEq, List.map_eq_nil_iff] at h2
    have ha : a < 10 := Nat.digits_lt_base (by norm_num) (hd ▸ List.mem_cons_self a l)
    have ha0 : a = 0 := by
      have hc := h2.1
      interval_cases a <;> first | rfl | exact absurd hc (by decide)
    have hof := Nat.ofDigits_digits 10 n
    rw [hd, ha0, h2.2] at hof
    simp [Nat.ofDigits] at hof
    omega

theorem asString_inj (l₁ l₂ : List Char) (h : l₁.asString = l₂.asString) : l₁ = l₂ := by
  have h2 := congrArg String.data h
  simpa [List.asString] using h2

theorem natRepr_inj (m n : Nat) (h : Nat.repr m = Nat.repr n) : m = n := by
  rcases Nat.eq_zero_or_pos m with hm | hm
  · rcases Nat.eq_zero_or_pos n with hn | hn
    · omega
    · exfalso
      subst hm
      rw [natRepr_pos_eq n hn] at h
      have hz : Nat.repr 0 = (['0'] : List Char).asString := rfl
      rw [hz] at h
      exact digits_eq_zero_digit_absurd n hn (asString_inj _ _ h.symm)
  · rcases Nat.eq_zero_or_pos n with hn | hn
    · exfalso
      subst hn
      rw [natRepr_pos_eq m hm] at h
      have hz : Nat.repr 0 = (['0'] : List Char).asString := rfl
      rw [hz] at h
      exact digits_eq_zero_digit_absurd m hm (asString_inj _ _ h)
    · rw [natRepr_pos_eq m hm, natRepr_pos_eq n hn] at h
      have hmap := List.reverse_injective (asString_inj _ _ h)
      have hdig := digits_map_digitChar_inj _ _
        (fun a ha => Nat.digits_lt_base (by norm_num) ha)
        (fun a ha => Nat.digits_lt_base (by norm_num) ha) hmap
      have h1 := Nat.ofDigits_digits 10 m
      have h2 := Nat.ofDigits_digits 10 n
      rw [hdig] at h1
      rw [h2] at h1
      exact h1.symm

theorem pkey_ne (j k : Nat) (h : j ≠ k) :
    ("p" ++ toString j : String) ≠ ("p" ++ toString k : String) := by
  intro hh
  apply h
  apply natRepr_inj
  have hd := congrArg String.data hh
  simp only [String.data_append] at hd
  have := List.append_cancel_left hd
  exact String.ext this

theorem pget_append (l₁ l₂ : Params) (k : String) :
    pget (l₁ ++ l₂) k = match pget l₁ k with
      | some v => some v
      | none => pget l₂ k := by
  induction l₁ with
  | nil => simp [pget]
  | cons kv rest ih =>
    obtain ⟨k', v'⟩ := kv
    by_cases hk : k' = k
    · simp [pget, hk]
    · simp [pget, hk, ih]

theorem pset_append (l : Params) (k : String) (v : Val) (h : pget l k = none) :
    pset l k v = l ++ [(k, v)] := by
  induction l with
  | nil => simp [pset]
  | cons kv rest ih =>
    obtain ⟨k', v'⟩ := kv
    by_cases hk : k' = k
    · simp [pget, hk] at h
    · simp [pget, hk] at h
      simp [pset, hk, ih h]

theorem pget_mem (l : Params) (k : String) (v : Val) (h : pget l k = some v) :
    (k, v) ∈ l := by
  induction l with
  | nil => simp [pget] at h
  | cons kv rest ih =>
    obtain ⟨k', v'⟩ := kv
    by_cases hk : k' = k
    · simp [pget, hk] at h
      simp [hk, h]
    · simp [pget, hk] at h
      simp [ih h]

theorem insertLoop_spec (db : Dialect) (cols : List (String × Val)) (names : List String)
    (params : Params)
    (hvals : ∀ name ∈ names, ∀ sub, (pget cols name).getD Val.vnull ≠ Val.vexpr sub)
    (hfresh : ∀ k, params.length ≤ k → pget params ("p" ++ toString k) = none) :
    insertLoop db cols names params
      = (names.map (quoteColumnName db),
         (List.range' params.length names.length).map
           (fun i => "\x7b:" ++ ("p" ++ toString i) ++ "\x7d"),
         params ++ (List.zip (List.range' params.length names.length) names).map
           (fun p => ("p" ++ toString p.1, (pget cols p.2).getD Val.vnull))) := by
  induction names generalizing params with
  | nil => simp [insertLoop, List.range']
  | cons name rest ih =>
    have hv1 := hvals name (by simp)
    rw [insertLoop]
    have hset : pset params ("p" ++ toString params.length) ((pget cols name).getD Val.vnull)
        = params ++ [("p" ++ toString params.length, (pget cols name).getD Val.vnull)] :=
      pset_append _ _ _ (hfresh params.length (le_refl _))
    have hfresh2 : ∀ k,
        (params ++ [("p" ++ toString params.length, (pget cols name).getD Val.vnull)]).length ≤ k
        → pget (params ++ [("p" ++ toString params.length,
            (pget cols name).getD Val.vnull)]) ("p" ++ toString k) = none := by
      intro k hk
      simp only [List.length_append, List.length_cons, List.length_nil] at hk
      rw [pget_append]
      rw [hfresh k (by omega)]
      simp [pget, pkey_ne params.length k (by omega : params.length ≠ k)]
    have ihh := ih _ (fun nm hnm sub => hvals nm (by simp [hnm]) sub) hfresh2
    cases hval : (pget cols name).getD Val.vnull with
    | vexpr sub => exact absurd hval (hv1 sub)
    | vnull =>
      rw [hval] at hset ihh
      simp only [hset, ihh]
      simp [List.range', List.append_assoc, hval]
    | vint n =>
      rw [hval] at hset ihh
      simp only [hset, ihh]
      simp [List.range', List.append_assoc, hval]
    | vstr str =>
      rw [hval] at hset ihh
      simp only [hset, ihh]
      simp [List.range', List.append_assoc, hval]
    | vlist vs =>
      rw [hval] at hset ihh
      simp only [hset, ihh]
      simp [List.range', List.append_assoc, hval]

/-- Claim C5 (amended, general part plus the concrete scenario): for a
column map whose values are not `Expression`s, `Insert` renders the quoted
column names sorted by key name with generated placeholders `p0, p1, ...`
assigned in that sorted-key order, and binds `pI` to the value of the
`I`-th sorted key; in particular the `users`/`name`/`age` scenario yields
exactly the claimed SQL and bindings. -/
theorem claim_C5_insert (db : Dialect) (table : String) (cols : List (String × Val))
    (hnx : ∀ p ∈ cols, ∀ sub, p.2 ≠ Val.vexpr sub) (hne : cols ≠ []) :
    ((insertQuery db table cols).sql
      = "INSERT INTO " ++ quoteTableName db table ++ " ("
        ++ String.intercalate ", " ((sortStrings (cols.map Prod.fst)).map (quoteColumnName db))
        ++ ") VALUES ("
        ++ String.intercalate ", " ((List.range' 0 (sortStrings (cols.map Prod.fst)).length).map
            (fun i => "\x7b:" ++ ("p" ++ toString i) ++ "\x7d"))
        ++ ")"
    ∧ (insertQuery db table cols).params
      = (List.zip (List.range' 0 (sortStrings (cols.map Prod.fst)).length)
          (sortStrings (cols.map Prod.fst))).map
          (fun p => ("p" ++ toString p.1, (pget cols p.2).getD Val.vnull)))
    ∧ ((insertQuery stdDialect "users"
          [("name", Val.vstr "James"), ("age", Val.vint 30)]).sql
        = "INSERT INTO \"users\" (\"age\", \"name\") VALUES (\x7b:p0\x7d, \x7b:p1\x7d)"
      ∧ pget (insertQuery stdDialect "users"
          [("name", Val.vstr "James"), ("age", Val.vint 30)]).params "p0"
          = some (Val.vint 30)
      ∧ pget (insertQuery stdDialect "users"
          [("name", Val.vstr "James"), ("age", Val.vint 30)]).params "p1"
          = some (Val.vstr "James")) := by
  constructor
  · have hvals : ∀ name ∈ sortStrings (cols.map Prod.fst), ∀ sub,
        (pget cols name).getD Val.vnull ≠ Val.vexpr sub := by
      intro name hmem sub
      cases hpv : pget cols name with
      | none => simp
      | some v =>
        simp only [Option.getD_some]
        exact hnx (name, v) (pget_mem cols name v hpv) sub
    have hfresh : ∀ k, ([] : Params).length ≤ k → pget ([] : Params) ("p" ++ toString k) = none :=
      fun k _ => rfl
    have hspec := insertLoop_spec db cols (sortStrings (cols.map Prod.fst)) [] hvals hfresh
    have hlen : ¬ (sortStrings (cols.map Prod.fst)).length = 0 := by
      rw [(sortStrings_perm (cols.map Prod.fst)).length_eq, List.length_map]
      simpa [List.length_eq_zero] using hne
    constructor
    · simp only [insertQuery, hspec, if_neg hlen, newQuery, bindParams]
      rfl
    · simp only [insertQuery, hspec, newQuery, bindParams]
      simp

  · refine ⟨?_, ?_, ?_⟩
    · simp +decide [insertQuery, insertLoop, newQuery, bindParams, sortStrings,
        List.insertionSort, List.orderedInsert, quoteTableName, quoteColumnName, listContains,
        splitAtLastDot, containsChar, stdDialect, pget, pset]
    · simp +decide [insertQuery, insertLoop, newQuery, bindParams, sortStrings,
        List.insertionSort, List.orderedInsert, pget, pset]
    · simp +decide [insertQuery, insertLoop, newQuery, bindParams, sortStrings,
        List.insertionSort, List.orderedInsert, pget, pset]

theorem claim_C5_insert_witness :
    ((∀ p ∈ [("b", Val.vint 1), ("a", Val.vstr "x")], ∀ sub, p.2 ≠ Val.vexpr sub)
      ∧ ([("b", Val.vint 1), ("a", Val.vstr "x")] : List (String × Val)) ≠ []
      ∧ (insertQuery stdDialect "t" [("b", Val.vint 1), ("a", Val.vstr "x")]).params
          = (List.zip (List.range' 0 (sortStrings
                ([("b", Val.vint 1), ("a", Val.vstr "x")].map Prod.fst)).length)
              (sortStrings ([("b", Val.vint 1), ("a", Val.vstr "x")].map Prod.fst))).map
              (fun p => ("p" ++ toString p.1,
                (pget [("b", Val.vint 1), ("a", Val.vstr "x")] p.2).getD Val.vnull))) := by
  have h1 : ∀ p ∈ [("b", Val.vint 1), ("a", Val.vstr "x")], ∀ sub, p.2 ≠ Val.vexpr sub := by
    intro p hp sub
    simp only [List.mem_cons, List.not_mem_nil, or_false] at hp
    rcases hp with h | h <;> subst h <;> simp
  have h2 : ([("b", Val.vint 1), ("a", Val.vstr "x")] : List (String × Val)) ≠ [] := by simp
  exact ⟨h1, h2,
    ((claim_C5_insert stdDialect "t" [("b", Val.vint 1), ("a", Val.vstr "x")] h1 h2).1).2⟩

/-- Claim C5 (counterexample to the original claim): with an `Expression`
value that binds one parameter of its own, the non-`Expression` column of a
two-column map gets the generated placeholder `p1`, and nothing is bound to
`p0` — so generated placeholder names are not `p0, p1, ...` for every
column map. -/
theorem claim_C5_counterexample :
    pget (insertQuery stdDialect "t"
        [("a", Val.vexpr (Expr.exp "1=1" [("q", Val.vint 7)])), ("b", Val.vint 2)]).params "p0"
      = none
    ∧ pget (insertQuery stdDialect "t"
        [("a", Val.vexpr (Expr.exp "1=1" [("q", Val.vint 7)])), ("b", Val.vint 2)]).params "p1"
      = some (Val.vint 2) := by
  constructor <;>
    simp +decide [insertQuery, insertLoop, buildExpr, newQuery, bindParams, sortStrings,
      List.insertionSort, List.orderedInsert, pget, pset]

/-- Text free of `\x7b` and `[`: it can neither start a placeholder nor a
quoting marker, so both preprocessing passes copy it verbatim. -/
def cleanStr (s : String) : Bool :=
  s.data.all (fun c => (c != '\x7b') && (c != '['))

/-- A well-formed placeholder name: nonempty and word characters only, as
`plRegex` requires. -/
def validName (s : String) : Bool :=
  !s.data.isEmpty && s.data.all isWordChar

/-- A raw SQL template presented as literal segments interleaved with named
placeholders, followed by a trailing literal: the shape
`lit₀ \x7b:n₁\x7d lit₁ \x7b:n₂\x7d ... t`. -/
def templateSQL (segs : List (String × String)) (t : String) : String :=
  match segs with
  | [] => t
  | (lit, name) :: rest => lit ++ "\x7b:" ++ name ++ "\x7d" ++ templateSQL rest t

/-- The dialect SQL that `processSQL` should produce for such a template:
each placeholder occurrence replaced, left to right, by the dialect's
anonymous placeholder with an incrementing counter. -/
def expectedSQL (db : Dialect) (segs : List (String × String)) (t : String) (k : Nat) : String :=
  match segs with
  | [] => t
  | (lit, name) :: rest => lit ++ db.generatePlaceholder k ++ expectedSQL db rest t (k + 1)

theorem takeWhile_append_all (p : Char → Bool) (n : List Char) (hall : ∀ c ∈ n, p c = true)
    (b : Char) (hb : p b = false) (r : List Char) :
    (n ++ b :: r).takeWhile p = n ∧ (n ++ b :: r).dropWhile p = b :: r := by
  induction n with
  | nil => simp [List.takeWhile, List.dropWhile, hb]
  | cons c rest ih =>
    have hc : p c = true := hall c (by simp)
    have ihh := ih (fun x hx => hall x (by simp [hx]))
    simp [List.takeWhile, List.dropWhile, hc, ihh.1, ihh.2]

theorem scanPH_clean_lit (lit : List Char) (hcl : ∀ c ∈ lit, c ≠ '\x7b') (r : List Char) :
    scanPH (lit ++ r) = lit.map Sum.inl ++ scanPH r := by
  induction lit with
  | nil => simp
  | cons c rest ih =>
    have hc : c ≠ '\x7b' := hcl c (by simp)
    rw [List.cons_append, scanPH]
    rw [if_neg (by simp [hc])]
    rw [ih (fun x hx => hcl x (by simp [hx]))]
    simp

theorem scanPH_match (n : List Char) (hne : n ≠ []) (hw : ∀ c ∈ n, isWordChar c) (r : List Char) :
    scanPH ('\x7b' :: ':' :: (n ++ '\x7d' :: r)) = Sum.inr (String.mk n) :: scanPH r := by
  have htd := takeWhile_append_all isWordChar n (fun c hc => hw c hc) '\x7d' (by decide) r
  rw [scanPH]
  rw [if_pos (by simp)]
  simp only [List.tail_cons, List.head?_cons]
  split
  · rename_i c3 rest3 hd
    rw [htd.2] at hd
    obtain ⟨hc3, hrest3⟩ : c3 = '\x7d' ∧ rest3 = r := by
      constructor <;> [exact (List.cons.injEq _ _ _ _ ▸ hd).1.symm;
        exact (List.cons.injEq _ _ _ _ ▸ hd).2.symm]
    subst hc3
    subst hrest3
    rw [if_pos ⟨rfl, by rw [htd.1]; exact hne⟩]
    rw [htd.1]
  · rename_i hd
    rw [htd.2] at hd
    simp at hd

theorem renderPH_inl_lit (gen : Nat → String) (lit : List Char)
    (ts : List (Char ⊕ String)) (k : Nat) :
    renderPH gen (lit.map Sum.inl ++ ts) k
      = (lit ++ (renderPH gen ts k).1, (renderPH gen ts k).2) := by
  induction lit with
  | nil => simp
  | cons c rest ih => simp [renderPH, ih]

theorem scanQuote_clean (l : List Char) (hcl : ∀ c ∈ l, c ≠ '\x7b' ∧ c ≠ '[') :
    scanQuote l = l.map Sum.inl := by
  induction l with
  | nil => simp [scanQuote]
  | cons c rest ih =>
    have hc := hcl c (by simp)
    rw [scanQuote]
    rw [if_neg (by simp [hc.1]), if_neg (by simp [hc.2])]
    rw [ih (fun x hx => hcl x (by simp [hx]))]
    simp

theorem renderQuote_inl (db : Dialect) (l : List Char) :
    renderQuote db (l.map Sum.inl) = l := by
  induction l with
  | nil => simp [renderQuote]
  | cons c rest ih => simp [renderQuote, ih]

theorem stringMk_data (s : String) : String.mk s.data = s := by
  obtain ⟨l⟩ := s
  rfl

theorem cleanStr_mem (s : String) (hs : cleanStr s) :
    ∀ c ∈ s.data, c ≠ '\x7b' ∧ c ≠ '[' := by
  intro c hc
  have := List.all_eq_true.mp hs c hc
  simp at this
  exact this

theorem expectedSQL_clean (db : Dialect) (segs : List (String × String)) (t : String) (k : Nat)
    (hseg : ∀ p ∈ segs, cleanStr p.1) (ht : cleanStr t)
    (hgen : ∀ i, cleanStr (db.generatePlaceholder i)) :
    ∀ c ∈ (expectedSQL db segs t k).data, c ≠ '\x7b' ∧ c ≠ '[' := by
  induction segs generalizing k with
  | nil =>
    intro c hc
    exact cleanStr_mem t ht c hc
  | cons p rest ih =>
    obtain ⟨lit, name⟩ := p
    intro c hc
    rw [expectedSQL] at hc
    simp only [String.data_append, List.mem_append] at hc
    rcases hc with (hc | hc) | hc
    · exact cleanStr_mem lit (hseg (lit, name) (List.mem_cons_self _ _)) c hc
    · exact cleanStr_mem _ (hgen k) c hc
    · exact ih (k + 1) (fun q hq => hseg q (List.mem_cons_of_mem _ hq)) c hc

theorem renderPH_template (db : Dialect) (segs : List (String × String)) (t : String) (k : Nat)
    (hseg : ∀ p ∈ segs, cleanStr p.1) (hname : ∀ p ∈ segs, validName p.2) (ht : cleanStr t) :
    renderPH db.generatePlaceholder (scanPH (templateSQL segs t).data) k
      = ((expectedSQL db segs t k).data, segs.map Prod.snd) := by
  induction segs generalizing k with
  | nil =>
    rw [templateSQL, expectedSQL]
    have h1 : scanPH t.data = t.data.map Sum.inl := by
      have := scanPH_clean_lit t.data (fun c hc => (cleanStr_mem t ht c hc).1) []
      simpa [scanPH] using this
    rw [h1]
    have := renderPH_inl_lit db.generatePlaceholder t.data [] k
    simpa [renderPH] using this
  | cons p rest ih =>
    obtain ⟨lit, name⟩ := p
    have hv := hname (lit, name) (by simp)
    simp only [validName, Bool.and_eq_true, Bool.not_eq_true'] at hv
    have hnne : name.data ≠ [] := by
      intro hh
      rw [hh] at hv
      simp at hv
    have hword : ∀ c ∈ name.data, isWordChar c := fun c hc => List.all_eq_true.mp hv.2 c hc
    have hdata : (templateSQL ((lit, name) :: rest) t).data
        = lit.data ++ ('\x7b' :: ':' :: (name.data ++ '\x7d' :: (templateSQL rest t).data)) := by
      rw [templateSQL]
      simp [String.data_append, List.append_assoc]
    rw [hdata]
    rw [scanPH_clean_lit lit.data
      (fun c hc => (cleanStr_mem lit (hseg (lit, name) (List.mem_cons_self _ _)) c hc).1) _]
    rw [scanPH_match name.data hnne hword _]
    rw [renderPH_inl_lit]
    rw [renderPH]
    rw [ih (k + 1) (fun q hq => hseg q (List.mem_cons_of_mem _ hq))
      (fun q hq => hname q (List.mem_cons_of_mem _ hq))]
    rw [expectedSQL]
    simp [stringMk_data]

/-- Claim C1: preprocessing a template made of clean literal segments and
`\x7b:name\x7d` placeholders replaces each occurrence, left to right, with
the dialect's anonymous placeholder for an incrementing counter, records
the names in occurrence order with duplicates preserved positionally, and
at render time the value list handed to the executor mirrors exactly that
order, a repeated name binding the same value at each occurrence. -/
theorem claim_C1 (db : Dialect) (segs : List (String × String)) (t : String) (params : Params)
    (hseg : ∀ p ∈ segs, cleanStr p.1) (hname : ∀ p ∈ segs, validName p.2)
    (ht : cleanStr t) (hgen : ∀ i, cleanStr (db.generatePlaceholder i)) :
    processSQL db (templateSQL segs t) = (expectedSQL db segs t 1, segs.map Prod.snd)
    ∧ ((∀ p ∈ segs, (pget params p.2).isSome) →
        replacePlaceholders (processSQL db (templateSQL segs t)).2 params
          = Except.ok ((segs.map Prod.snd).map (fun n => (pget params n).getD Val.vnull))) := by
  have hmain : processSQL db (templateSQL segs t) = (expectedSQL db segs t 1, segs.map Prod.snd) := by
    rw [processSQL]
    rw [renderPH_template db segs t 1 hseg hname ht]
    simp only
    rw [scanQuote_clean _ (expectedSQL_clean db segs t 1 hseg ht hgen)]
    rw [renderQuote_inl]
  refine ⟨hmain, ?_⟩
  intro hall
  rw [hmain]
  apply (claim_C2 (segs.map Prod.snd) params).1
  intro n hn
  rw [List.mem_map] at hn
  obtain ⟨p, hp, hpn⟩ := hn
  rw [← hpn]
  exact hall p hp

theorem claim_C1_witness :
    ((∀ p ∈ [("SELECT * FROM t WHERE a=", "id"), (" AND b=", "id")], cleanStr p.1)
      ∧ (∀ p ∈ [("SELECT * FROM t WHERE a=", "id"), (" AND b=", "id")], validName p.2)
      ∧ cleanStr ""
      ∧ (∀ i, cleanStr (stdDialect.generatePlaceholder i))
      ∧ (∀ p ∈ [("SELECT * FROM t WHERE a=", "id"), (" AND b=", "id")],
          (pget [("id", Val.vint 5)] p.2).isSome))
    ∧ processSQL stdDialect
        (templateSQL [("SELECT * FROM t WHERE a=", "id"), (" AND b=", "id")] "")
        = (expectedSQL stdDialect [("SELECT * FROM t WHERE a=", "id"), (" AND b=", "id")] "" 1,
           ["id", "id"])
    ∧ replacePlaceholders
        (processSQL stdDialect
          (templateSQL [("SELECT * FROM t WHERE a=", "id"), (" AND b=", "id")] "")).2
        [("id", Val.vint 5)]
        = Except.ok [Val.vint 5, Val.vint 5] := by
  have hc := claim_C1 stdDialect [("SELECT * FROM t WHERE a=", "id"), (" AND b=", "id")] ""
    [("id", Val.vint 5)] (by decide) (by decide) (by decide)
    (by intro i; show cleanStr "?" = true; decide)
  exact ⟨⟨by decide, by decide, by decide,
    by intro i; show cleanStr "?" = true; decide, by decide⟩, hc.1, hc.2 (by decide)⟩

end OzzoDbx
